import Mathlib

/-!
Verification of the roster-generation engine of the Dienstplanung app
(`src/app.py`).  The embedding below translates the generation code
(block 3 of the script: demand, standard pass, scarcity fill pass) into
executable Lean definitions.  Python dicts are represented as association
lists in insertion order, mutable session state is threaded explicitly
through a `RunState`, and Python's stable `sorted`/`list.sort` is modelled
by a stable insertion sort by the same key.
-/

namespace Dienstplan

/-- Day names, `days` in app.py line 22. -/
def days : List String := ["Montag", "Dienstag", "Mittwoch", "Donnerstag", "Freitag"]

/-- Shift names, `schifts` in app.py line 23. -/
def schifts : List String := ["Vormittag", "Nachmittag"]

/-- Association-list lookup; models Python `dict[k]` / `dict.get(k)`
(first matching key; app dicts have unique keys). -/
def alookup {α : Type} (k : String) : List (String × α) → Option α
  | [] => none
  | e :: es => if e.1 = k then some e.2 else alookup k es

/-- Per-day map, e.g. `{'Montag': ['Vormittag'], ...}`. -/
abbrev DayMap := List (String × List String)

/-- Models `m.get(d, [])` on a per-day dict. -/
def getDay (m : DayMap) (d : String) : List String := (alookup d m).getD []

/-- Value stored in `st.session_state.bereiche_cfg[bereich]`
(app.py line 202): required shifts per day and eligible helpers. -/
structure BereichCfg where
  shifts : DayMap
  helpers : List String
deriving DecidableEq, Repr

/-- Value stored in `st.session_state.helpers_cfg[h]` (app.py lines 234-238):
remaining weekly hours (mutated during a run), availability, areas. -/
structure HelperCfg where
  max_hours : Int
  times : DayMap
  areas : List String
deriving DecidableEq, Repr

/-- One committed roster entry, the dict
`{'Slot': ..., 'Bereich': ..., 'Helferin': ...}` appended to `plan`. -/
structure Assignment where
  slot : String
  bereich : String
  helferin : String
deriving DecidableEq, Repr

/-- The configuration/session data the generate button (app.py lines 242-384)
reads: the two config dicts, the selections, the standard plan table and the
special rules. -/
structure PlanState where
  bereiche_cfg : List (String × BereichCfg)
  helpers_cfg : List (String × HelperCfg)
  selected_bereiche : List String
  standard_plan_map : List (String × List (String × String))
  rezeption_prioritaet : Option String
  rezeption2_bedarf_vorher : Bool

/-- Mutable state threaded through a single generate run: the `plan` list,
the (hour-decremented) `helpers_cfg` dict and the `used_helpers` sets,
the latter flattened to a list of `(day, shift, helferin)` triples. -/
structure RunState where
  plan : List Assignment
  helpers : List (String × HelperCfg)
  used : List (String × String × String)
deriving DecidableEq, Repr

/-- Models Python `s.split(" ")` (separator given explicitly, empty pieces
kept), implemented structurally over the character list. -/
def splitSpace (s : String) : List String :=
  go s.data []
where
  go : List Char → List Char → List String
    | [], acc => [String.mk acc.reverse]
    | c :: cs, acc =>
      if c = ' ' then String.mk acc.reverse :: go cs [] else go cs (c :: acc)

/-- Models Python `s.startswith(p)`. -/
def strStartsWith (s p : String) : Bool := p.data.isPrefixOf s.data

/-- The ten slot labels `slots_order` (app.py line 245), Monday-morning
through Friday-afternoon. -/
def slots_order : List String := days.flatMap fun d => schifts.map fun s => d ++ " " ++ s

/-- Decrement `helpers_cfg[h]['max_hours']` by one (app.py lines 306, 383). -/
def decHours (l : List (String × HelperCfg)) (h : String) : List (String × HelperCfg) :=
  l.map fun e => if e.1 = h then (e.1, { e.2 with max_hours := e.2.max_hours - 1 }) else e

/-- Current `helpers_cfg[h]['max_hours']` (app.py line 375). -/
def hoursOf (l : List (String × HelperCfg)) (h : String) : Int :=
  ((alookup h l).map HelperCfg.max_hours).getD 0

/-- One entry of the standard-plan loop body (app.py lines 266-307): the
nine eligibility checks and, on success, the commit.  A failed check is
`continue` in the source, i.e. the state is returned unchanged.  The lookup
`bereiche_cfg.get(bereich, {})` is modelled with an empty default; in the
app every selected Bereich has been written to `bereiche_cfg` by the form
loop (lines 184-202), so the default is never consulted on commit paths. -/
def stdTry (st : PlanState) (slot bereich helferin : String) (acc : RunState) : RunState :=
  if bereich ∈ st.selected_bereiche then
    match splitSpace slot with
    | [d, s] =>
      let cfg_b := (alookup bereich st.bereiche_cfg).getD ⟨[], []⟩
      match alookup helferin acc.helpers with
      | some hcfg =>
        if s ∈ getDay cfg_b.shifts d ∧ 0 < hcfg.max_hours ∧ s ∈ getDay hcfg.times d ∧
            bereich ∈ hcfg.areas ∧ helferin ∈ cfg_b.helpers ∧ (d, s, helferin) ∉ acc.used then
          { plan := acc.plan ++ [⟨slot, bereich, helferin⟩],
            helpers := decHours acc.helpers helferin,
            used := (d, s, helferin) :: acc.used }
        else acc
      | none => acc
    | _ => acc
  else acc

/-- One `standard_plan_map` entry (app.py lines 260-307): slots not in
`slots_order` are ignored, otherwise the Bereich→Helferin pairs of the
entry are tried in order. -/
def stdStep (st : PlanState) (acc : RunState) (entry : String × List (String × String)) : RunState :=
  if entry.1 ∈ slots_order then
    entry.2.foldl (fun a p => stdTry st entry.1 p.1 p.2 a) acc
  else acc

/-- Standard pass, block 3.2: iterate `standard_plan_map.items()` in the
table's own (dict insertion) order. -/
def stdPass (st : PlanState) (acc : RunState) : RunState :=
  st.standard_plan_map.foldl (stdStep st) acc

/-- Open areas of a slot (app.py lines 320-333): selected, demanded at
`(d, s)`, and without an existing plan entry for this slot. -/
def missingBereiche (st : PlanState) (d s : String) (acc : RunState) : List String :=
  st.bereiche_cfg.filterMap fun e =>
    if e.1 ∈ st.selected_bereiche ∧ s ∈ getDay e.2.shifts d ∧
        ¬ ∃ p ∈ acc.plan, p.slot = d ++ " " ++ s ∧ p.bereich = e.1 then
      some e.1
    else none

/-- Candidate list for one open Bereich (app.py lines 336-352), computed
against the current helper hours and used set. -/
def rawCandidates (st : PlanState) (acc : RunState) (d s bereich : String) : List String :=
  let cfg_b := (alookup bereich st.bereiche_cfg).getD ⟨[], []⟩
  acc.helpers.filterMap fun e =>
    if 0 < e.2.max_hours ∧ s ∈ getDay e.2.times d ∧ bereich ∈ e.2.areas ∧
        e.1 ∈ cfg_b.helpers ∧ (d, s, e.1) ∉ acc.used then
      some e.1
    else none

/-- Rezeption2-Bedarfsvorbedingung (app.py lines 353-361): while any other
open Bereich whose name does not start with `Rezeption` remains in this
slot, the candidate list of a `Rezeption 2` Bereich is emptied. -/
def applyRez2Rule (st : PlanState) (missing : List String) (bereich : String)
    (cands : List String) : List String :=
  if strStartsWith bereich "Rezeption 2" = true ∧ st.rezeption2_bedarf_vorher = true then
    if missing.filter (fun b => !strStartsWith b "Rezeption" && b != "Rezeption 2") ≠ [] then
      []
    else cands
  else cands

/-- The `bereich_kandidaten` list of a slot before sorting
(app.py lines 336-362). -/
def bereichKandidaten (st : PlanState) (d s : String) (acc : RunState) :
    List (String × List String) :=
  let missing := missingBereiche st d s acc
  missing.map fun b => (b, applyRez2Rule st missing b (rawCandidates st acc d s b))

/-- Stable insertion at the first position whose key is not smaller;
building block of the model of Python's stable sort. -/
def insertBy {α κ : Type} [LinearOrder κ] (key : α → κ) (x : α) : List α → List α
  | [] => [x]
  | y :: ys => if key x ≤ key y then x :: y :: ys else y :: insertBy key x ys

/-- Stable sort by a key, modelling Python `sorted(l, key=...)` /
`l.sort(key=...)` (any two stable sorts by the same key agree). -/
def insSortBy {α κ : Type} [LinearOrder κ] (key : α → κ) : List α → List α
  | [] => []
  | x :: xs => insertBy key x (insSortBy key xs)

/-- The `bereich_kandidaten.sort(key=lambda bc: len(bc[1]))` call
(app.py line 365). -/
def sortKandidaten (l : List (String × List String)) : List (String × List String) :=
  insSortBy (fun bc => bc.2.length) l

/-- Choice of the Helferin for one open Bereich (app.py lines 372-379):
head of the candidates sorted by ascending remaining hours, overridden by
`rezeption_prioritaet` when the Bereich starts with `Rezeption` and the
priority helper is among the candidates. -/
def chooseCandidate (hours : String → Int) (bereich : String) (prio : Option String)
    (cands : List String) : String :=
  let sorted := insSortBy hours cands
  let chosen := sorted.headD ""
  match prio with
  | some p => if strStartsWith bereich "Rezeption" = true ∧ p ∈ sorted then p else chosen
  | none => chosen

/-- Commit loop of the fill pass (app.py lines 368-384): walk the sorted
`bereich_kandidaten` list and commit each non-empty candidate list.  As in
the source, neither `used_helpers` nor `max_hours` is re-checked here. -/
def fillCommit (st : PlanState) (d s : String) (acc : RunState)
    (bk : List (String × List String)) : RunState :=
  bk.foldl
    (fun a bc =>
      if bc.2 = [] then a
      else
        let chosen := chooseCandidate (hoursOf a.helpers) bc.1 st.rezeption_prioritaet bc.2
        { plan := a.plan ++ [⟨d ++ " " ++ s, bc.1, chosen⟩],
          helpers := decHours a.helpers chosen,
          used := (d, s, chosen) :: a.used })
    acc

/-- Fill handling of one slot: compute `bereich_kandidaten`, sort by
scarcity, commit (app.py lines 317-384). -/
def fillSlot (st : PlanState) (d s : String) (acc : RunState) : RunState :=
  fillCommit st d s acc (sortKandidaten (bereichKandidaten st d s acc))

/-- Fill pass, block 3.3: all slots in canonical day/shift order
(app.py lines 315-316). -/
def fillPass (st : PlanState) (acc : RunState) : RunState :=
  days.foldl (fun a d => schifts.foldl (fun a2 s => fillSlot st d s a2) a) acc

/-- Fresh run state of one generate click (app.py lines 243-245):
empty plan, empty used sets, hours as configured. -/
def initRun (st : PlanState) : RunState := ⟨[], st.helpers_cfg, []⟩

/-- One full generate run: standard pass, then fill pass. -/
def generate (st : PlanState) : RunState := fillPass st (stdPass st (initRun st))

/-! ## Session rerun model (sidebar/widget flow around the generate button)

On every Streamlit interaction the script reruns top to bottom.  The form
loop of app.py lines 209-238 overwrites `st.session_state.helpers_cfg[h]`
for every currently selected helper `h` with the widget values (which are
keyed separately and untouched by the hour decrements of a run); entries
of helpers that are no longer selected persist unchanged. -/

/-- Values currently held by the helper widgets (`mh_*`, `ts_*`, `a_*` keys). -/
structure WidgetState where
  selected_helpers : List String
  helper_vals : List (String × HelperCfg)

/-- The `HelperCfg` the form loop writes for a selected helper. -/
def widgetVal (w : WidgetState) (h : String) : HelperCfg :=
  (alookup h w.helper_vals).getD ⟨40, [], []⟩

/-- Python dict assignment `d[k] = v`: replace in place when the key
exists, else append. -/
def dictSet (l : List (String × HelperCfg)) (k : String) (v : HelperCfg) :
    List (String × HelperCfg) :=
  if (alookup k l).isSome then l.map fun e => if e.1 = k then (k, v) else e
  else l ++ [(k, v)]

/-- The helper form loop (app.py lines 209-238): write the widget values of
every selected helper over the session dict. -/
def rebuildHelpers (w : WidgetState) (old : List (String × HelperCfg)) :
    List (String × HelperCfg) :=
  w.selected_helpers.foldl (fun acc h => dictSet acc h (widgetVal w h)) old

/-- The parts of a rerun the widgets determine identically each time:
area configuration, selections, standard plan and rules. -/
structure FixedUI where
  bereiche_cfg : List (String × BereichCfg)
  selected_bereiche : List String
  standard_plan_map : List (String × List (String × String))
  rezeption_prioritaet : Option String
  rezeption2_bedarf_vorher : Bool

/-- One script rerun ending in a click of the generate button: rebuild
`helpers_cfg` from the widgets, run `generate`, keep the mutated helper
dict in the session.  Returns the produced plan and the new session dict. -/
def scriptRun (ui : FixedUI) (w : WidgetState) (sess : List (String × HelperCfg)) :
    List Assignment × List (String × HelperCfg) :=
  let helpers := rebuildHelpers w sess
  let st : PlanState :=
    { bereiche_cfg := ui.bereiche_cfg, helpers_cfg := helpers,
      selected_bereiche := ui.selected_bereiche,
      standard_plan_map := ui.standard_plan_map,
      rezeption_prioritaet := ui.rezeption_prioritaet,
      rezeption2_bedarf_vorher := ui.rezeption2_bedarf_vorher }
  let r := generate st
  (r.plan, r.helpers)

/-! ## Config validation (app.py lines 26-66)

`load_config` only checks the presence of the top-level keys; the record
type below has all of them, so the modelled validation is
`validate_config`, which checks the membership of areas and staff in their
maps.  Error strings keep the source wording without the quote characters. -/

/-- The uploaded JSON configuration after `load_config` (all required keys
present). -/
structure RawConfig where
  bereiche : List String
  mitarbeiter : List String
  standard_dienstplan : List (String × List (String × String))
  bereich_schichten : List (String × DayMap)
  bereich_mitarbeiter : List (String × List String)
  mitarbeiter_verfuegbarkeit : List (String × DayMap)
  mitarbeiter_bereiche : List (String × List String)
  mitarbeiter_max_stunden : List (String × Int)
  rezeption_prioritaet : Option String
  rezeption2_bedarf_vorher : Bool

/-- The `validate_config` function (app.py lines 51-66). -/
def validate_config (c : RawConfig) : List String :=
  (c.bereiche.filterMap fun b =>
    if (alookup b c.bereich_schichten).isSome then none
    else some ("Bereich " ++ b ++ " fehlt in bereich_schichten"))
  ++ c.mitarbeiter.flatMap fun m =>
    (if (alookup m c.mitarbeiter_verfuegbarkeit).isSome then []
     else ["Mitarbeiter " ++ m ++ " fehlt in mitarbeiter_verfuegbarkeit"])
    ++ (if (alookup m c.mitarbeiter_bereiche).isSome then []
     else ["Mitarbeiter " ++ m ++ " fehlt in mitarbeiter_bereiche"])
    ++ (if (alookup m c.mitarbeiter_max_stunden).isSome then []
     else ["Mitarbeiter " ++ m ++ " fehlt in mitarbeiter_max_stunden"])

/-- The `PlanState` reached by loading a config and accepting every form
default (app.py lines 167-238 with untouched widgets; line 222 filters the
availability defaults to the valid shift names). -/
def stateFromConfig (c : RawConfig) : PlanState :=
  { bereiche_cfg := c.bereiche.map fun b =>
      (b, ⟨(alookup b c.bereich_schichten).getD [],
           (alookup b c.bereich_mitarbeiter).getD []⟩),
    helpers_cfg := c.mitarbeiter.map fun m =>
      (m, ⟨(alookup m c.mitarbeiter_max_stunden).getD 40,
           days.map fun d =>
             (d, (getDay ((alookup m c.mitarbeiter_verfuegbarkeit).getD []) d).filter
                   (fun sh => sh ∈ schifts)),
           (alookup m c.mitarbeiter_bereiche).getD []⟩),
    selected_bereiche := c.bereiche,
    standard_plan_map := c.standard_dienstplan,
    rezeption_prioritaet := c.rezeption_prioritaet,
    rezeption2_bedarf_vorher := c.rezeption2_bedarf_vorher }

/-! ## Properties of the roster -/

/-- The per-slot invariant of the spec: no Helferin appears in two
different Bereiche of the same slot. -/
def NoDoubleBooking (l : List Assignment) : Prop :=
  l.Pairwise fun p q => ¬(p.slot = q.slot ∧ p.helferin = q.helferin ∧ p.bereich ≠ q.bereich)

/-- Number of committed assignments of one Helferin. -/
def assignedCount (l : List Assignment) (h : String) : Nat :=
  (l.filter fun p => p.helferin == h).length

/-- The slots of the entries appear in canonical weekly order. -/
def SlotOrdered (l : List Assignment) : Prop :=
  l.Pairwise fun p q => slots_order.indexOf p.slot ≤ slots_order.indexOf q.slot

/-- The `(slot, Bereich)` cells of a plan. -/
def pairsOf (l : List Assignment) : List (String × String) :=
  l.map fun p => (p.slot, p.bereich)

/-- All `(slot, Bereich)` cells the standard-plan table mentions, in table
order. -/
def tableKeys (st : PlanState) : List (String × String) :=
  st.standard_plan_map.flatMap fun e => e.2.map fun q => (e.1, q.1)

/-! ## Concrete configurations used as test vectors -/

/-- Two selected Bereiche demanding Monday morning, one qualified Helferin
with two remaining hours. -/
def cfgDouble : PlanState :=
  { bereiche_cfg := [("Ambulanz", ⟨[("Montag", ["Vormittag"])], ["Karla"]⟩),
                     ("Labor", ⟨[("Montag", ["Vormittag"])], ["Karla"]⟩)],
    helpers_cfg := [("Karla", ⟨2, [("Montag", ["Vormittag"])], ["Ambulanz", "Labor"]⟩)],
    selected_bereiche := ["Ambulanz", "Labor"],
    standard_plan_map := [],
    rezeption_prioritaet := none,
    rezeption2_bedarf_vorher := false }

/-- Two selected Bereiche demanding Monday morning, one qualified Helferin
with a single remaining hour. -/
def cfgOver : PlanState :=
  { bereiche_cfg := [("Ambulanz", ⟨[("Montag", ["Vormittag"])], ["Marta"]⟩),
                     ("Labor", ⟨[("Montag", ["Vormittag"])], ["Marta"]⟩)],
    helpers_cfg := [("Marta", ⟨1, [("Montag", ["Vormittag"])], ["Ambulanz", "Labor"]⟩)],
    selected_bereiche := ["Ambulanz", "Labor"],
    standard_plan_map := [],
    rezeption_prioritaet := none,
    rezeption2_bedarf_vorher := false }

/-- A `Rezeption 2` with one eligible candidate next to an open `Labor`
without any candidate, deferral rule switched on. -/
def cfgRez2 : PlanState :=
  { bereiche_cfg := [("Rezeption 2", ⟨[("Montag", ["Vormittag"])], ["Heidi"]⟩),
                     ("Labor", ⟨[("Montag", ["Vormittag"])], []⟩)],
    helpers_cfg := [("Heidi", ⟨1, [("Montag", ["Vormittag"])], ["Rezeption 2"]⟩)],
    selected_bereiche := ["Rezeption 2", "Labor"],
    standard_plan_map := [],
    rezeption_prioritaet := none,
    rezeption2_bedarf_vorher := true }

/-- The spec scenario for the reception priority rule: A with five hours
left, B with one hour left and configured as `rezeption_prioritaet`. -/
def cfgRezPrio : PlanState :=
  { bereiche_cfg := [("Rezeption 1", ⟨[("Montag", ["Vormittag"])], ["A", "B"]⟩)],
    helpers_cfg := [("A", ⟨5, [("Montag", ["Vormittag"])], ["Rezeption 1"]⟩),
                    ("B", ⟨1, [("Montag", ["Vormittag"])], ["Rezeption 1"]⟩)],
    selected_bereiche := ["Rezeption 1"],
    standard_plan_map := [],
    rezeption_prioritaet := some "B",
    rezeption2_bedarf_vorher := false }

/-- A standard-plan table whose entries are listed Monday afternoon before
Monday morning; both entries are committable. -/
def cfgTableOrder : PlanState :=
  { bereiche_cfg := [("Ambulanz", ⟨[("Montag", ["Vormittag", "Nachmittag"])], ["Helga"]⟩)],
    helpers_cfg := [("Helga", ⟨10, [("Montag", ["Vormittag", "Nachmittag"])], ["Ambulanz"]⟩)],
    selected_bereiche := ["Ambulanz"],
    standard_plan_map := [("Montag Nachmittag", [("Ambulanz", "Helga")]),
                          ("Montag Vormittag", [("Ambulanz", "Helga")])],
    rezeption_prioritaet := none,
    rezeption2_bedarf_vorher := false }

/-- A configuration whose standard-plan table names the unknown Helferin
`Zaza`; areas and staff themselves are all present in their maps. -/
def cfgBadRef : RawConfig :=
  { bereiche := ["Labor"],
    mitarbeiter := ["Anna"],
    standard_dienstplan := [("Montag Vormittag", [("Labor", "Zaza")])],
    bereich_schichten := [("Labor", [("Montag", ["Vormittag"])])],
    bereich_mitarbeiter := [("Labor", ["Anna"])],
    mitarbeiter_verfuegbarkeit := [("Anna", [("Montag", [])])],
    mitarbeiter_bereiche := [("Anna", ["Labor"])],
    mitarbeiter_max_stunden := [("Anna", 40)],
    rezeption_prioritaet := none,
    rezeption2_bedarf_vorher := false }

/-- Fixed UI parts of the stale-helper session: one `Labor` Bereich
demanding both Monday slots, open to Anna and Berta. -/
def uiStale : FixedUI :=
  { bereiche_cfg := [("Labor", ⟨[("Montag", ["Vormittag", "Nachmittag"])], ["Anna", "Berta"]⟩)],
    selected_bereiche := ["Labor"],
    standard_plan_map := [],
    rezeption_prioritaet := none,
    rezeption2_bedarf_vorher := false }

/-- Widget state of the stale-helper session: only Anna is still selected,
with two weekly hours. -/
def wStale : WidgetState :=
  { selected_helpers := ["Anna"],
    helper_vals := [("Anna", ⟨2, [("Montag", ["Vormittag", "Nachmittag"])], ["Labor"]⟩)] }

/-- Session helper dict of the stale-helper session: a leftover entry for
the deselected Berta with one remaining hour. -/
def sessStale : List (String × HelperCfg) :=
  [("Berta", ⟨1, [("Montag", ["Vormittag", "Nachmittag"])], ["Labor"]⟩)]

/-- The static eligibility facts of claim C4 for one committed assignment:
the slot is a canonical day/shift pair; the Helferin appears in the
Bereich's eligible list (looked up in `bereiche_cfg`); the Bereich is
configured to demand the slot; the Helferin's configuration lists the
shift for that day and the Bereich among her areas. -/
def Eligible (st : PlanState) (p : Assignment) : Prop :=
  ∃ d s, d ∈ days ∧ s ∈ schifts ∧ p.slot = d ++ " " ++ s ∧
    (∃ cb, alookup p.bereich st.bereiche_cfg = some cb ∧ p.helferin ∈ cb.helpers) ∧
    (∃ e ∈ st.bereiche_cfg, e.1 = p.bereich ∧ s ∈ getDay e.2.shifts d) ∧
    (∃ e ∈ st.helpers_cfg, e.1 = p.helferin ∧ s ∈ getDay e.2.times d ∧
      p.bereich ∈ e.2.areas)

/-- Relation between the configured helper dict and the current one during
a run: same keys in the same order, same availability and areas — only the
hour counters may differ (they are the only field the run mutates). -/
def SameShape : List (String × HelperCfg) → List (String × HelperCfg) → Prop :=
  List.Forall₂ fun a b => a.1 = b.1 ∧ a.2.times = b.2.times ∧ a.2.areas = b.2.areas

/-- Invariant carried through a generate run for claim C4. -/
def EligInv (st : PlanState) (acc : RunState) : Prop :=
  SameShape st.helpers_cfg acc.helpers ∧ ∀ p ∈ acc.plan, Eligible st p

/-- Eligibility of every candidate of a per-slot `bereich_kandidaten`
list, phrased against the immutable configuration. -/
def SlotElig (st : PlanState) (d s : String) (bk : List (String × List String)) : Prop :=
  ∀ bc ∈ bk, ∀ c ∈ bc.2,
    (∃ cb, alookup bc.1 st.bereiche_cfg = some cb ∧ c ∈ cb.helpers) ∧
    (∃ e ∈ st.bereiche_cfg, e.1 = bc.1 ∧ s ∈ getDay e.2.shifts d) ∧
    (∃ e ∈ st.helpers_cfg, e.1 = c ∧ s ∈ getDay e.2.times d ∧ bc.1 ∈ e.2.areas)

/-! ## Lemmas about association lists -/

theorem alookup_mem {α : Type} {k : String} {v : α} :
    ∀ {l : List (String × α)}, alookup k l = some v → (k, v) ∈ l := by
  intro l
  induction l with
  | nil => intro h; simp [alookup] at h
  | cons e es ih =>
    obtain ⟨k1, v1⟩ := e
    intro h
    by_cases he : k1 = k
    · subst he
      rw [alookup, if_pos rfl] at h
      cases h
      exact List.mem_cons_self _ _
    · rw [alookup, if_neg he] at h
      exact List.mem_cons_of_mem _ (ih h)

theorem alookup_isSome_of_mem {α : Type} {k : String} {v : α} :
    ∀ {l : List (String × α)}, (k, v) ∈ l → ∃ w, alookup k l = some w := by
  intro l
  induction l with
  | nil => intro h; cases h
  | cons e es ih =>
    intro h
    rw [alookup]
    by_cases he : e.1 = k
    · exact ⟨e.2, if_pos he⟩
    · rcases List.mem_cons.1 h with h2 | h2
      · rw [← h2] at he; simp at he
      · rw [if_neg he]; exact ih h2

/-- A fold preserves any invariant its step preserves. -/
theorem foldl_inv {σ β : Type} {P : σ → Prop} {f : σ → β → σ} :
    ∀ (l : List β) (s : σ), (∀ s b, b ∈ l → P s → P (f s b)) → P s → P (l.foldl f s) := by
  intro l
  induction l with
  | nil => intro s _ hs; exact hs
  | cons b bs ih =>
    intro s hf hs
    exact ih (f s b) (fun s2 b2 hb2 => hf s2 b2 (List.mem_cons_of_mem _ hb2))
      (hf s b (List.mem_cons_self _ _) hs)

/-! ## Lemmas about the stable sort -/

theorem insertBy_perm {α κ : Type} [LinearOrder κ] (key : α → κ) (x : α) :
    ∀ l : List α, List.Perm (insertBy key x l) (x :: l) := by
  intro l
  induction l with
  | nil => exact List.Perm.refl _
  | cons y ys ih =>
    by_cases h : key x ≤ key y
    · rw [insertBy, if_pos h]
    · rw [insertBy, if_neg h]
      exact (ih.cons y).trans (List.Perm.swap x y ys)

theorem mem_insertBy {α κ : Type} [LinearOrder κ] (key : α → κ) (x a : α) (l : List α) :
    a ∈ insertBy key x l ↔ a = x ∨ a ∈ l := by
  rw [(insertBy_perm key x l).mem_iff, List.mem_cons]

theorem insSortBy_perm {α κ : Type} [LinearOrder κ] (key : α → κ) :
    ∀ l : List α, List.Perm (insSortBy key l) l := by
  intro l
  induction l with
  | nil => exact List.Perm.refl _
  | cons x xs ih => exact (insertBy_perm key x _).trans (ih.cons x)

theorem mem_insSortBy {α κ : Type} [LinearOrder κ] (key : α → κ) (a : α) (l : List α) :
    a ∈ insSortBy key l ↔ a ∈ l :=
  (insSortBy_perm key l).mem_iff

theorem insertBy_sorted {α κ : Type} [LinearOrder κ] (key : α → κ) (x : α) :
    ∀ l : List α, l.Pairwise (fun a b => key a ≤ key b) →
      (insertBy key x l).Pairwise (fun a b => key a ≤ key b) := by
  intro l
  induction l with
  | nil => intro _; simp [insertBy]
  | cons y ys ih =>
    intro hl
    rw [List.pairwise_cons] at hl
    by_cases h : key x ≤ key y
    · rw [insertBy, if_pos h, List.pairwise_cons]
      refine ⟨?_, List.pairwise_cons.2 hl⟩
      intro b hb
      rcases List.mem_cons.1 hb with rfl | hb
      · exact h
      · exact le_trans h (hl.1 b hb)
    · rw [insertBy, if_neg h, List.pairwise_cons]
      refine ⟨?_, ih hl.2⟩
      intro b hb
      rcases (mem_insertBy key x b ys).1 hb with rfl | hb
      · exact le_of_lt (lt_of_not_le h)
      · exact hl.1 b hb

theorem insSortBy_sorted {α κ : Type} [LinearOrder κ] (key : α → κ) :
    ∀ l : List α, (insSortBy key l).Pairwise (fun a b => key a ≤ key b) := by
  intro l
  induction l with
  | nil => simp [insSortBy]
  | cons x xs ih => exact insertBy_sorted key x _ ih

theorem insertBy_filter {α κ : Type} [LinearOrder κ] (key : α → κ) (x : α) (n : κ) :
    ∀ l : List α,
      (insertBy key x l).filter (fun a => decide (key a = n)) =
        if key x = n then x :: l.filter (fun a => decide (key a = n))
        else l.filter (fun a => decide (key a = n)) := by
  intro l
  induction l with
  | nil => by_cases hx : key x = n <;> simp [insertBy, hx]
  | cons y ys ih =>
    by_cases h : key x ≤ key y
    · rw [insertBy, if_pos h]
      by_cases hx : key x = n <;> simp [List.filter_cons, hx]
    · have hyx : key y < key x := lt_of_not_le h
      rw [insertBy, if_neg h]
      by_cases hx : key x = n
      · have hy : key y ≠ n := ne_of_lt (hx ▸ hyx)
        simp [List.filter_cons, hy, ih, hx]
      · simp [List.filter_cons, ih, hx]

theorem insSortBy_filter {α κ : Type} [LinearOrder κ] (key : α → κ) (n : κ) :
    ∀ l : List α,
      (insSortBy key l).filter (fun a => decide (key a = n)) =
        l.filter (fun a => decide (key a = n)) := by
  intro l
  induction l with
  | nil => rfl
  | cons x xs ih =>
    rw [insSortBy, insertBy_filter, ih]
    by_cases hx : key x = n <;> simp [hx, List.filter_cons]

theorem insSortBy_head_min {α κ : Type} [LinearOrder κ] (key : α → κ) (l : List α)
    (a : α) (ha : a ∈ l) (dflt : α) :
    key ((insSortBy key l).headD dflt) ≤ key a := by
  have hperm := insSortBy_perm key l
  have hsorted := insSortBy_sorted key l
  cases hs : insSortBy key l with
  | nil =>
    rw [hs] at hperm
    rw [hperm.symm.eq_nil] at ha
    cases ha
  | cons h t =>
    rw [hs] at hperm hsorted
    rw [List.pairwise_cons] at hsorted
    have ha2 : a ∈ h :: t := hperm.mem_iff.2 ha
    rcases List.mem_cons.1 ha2 with rfl | ha2
    · exact le_refl _
    · exact hsorted.1 a ha2

theorem insSortBy_headD_mem {α κ : Type} [LinearOrder κ] (key : α → κ) (l : List α)
    (hne : l ≠ []) (dflt : α) : (insSortBy key l).headD dflt ∈ l := by
  have hperm := insSortBy_perm key l
  cases hs : insSortBy key l with
  | nil =>
    rw [hs] at hperm
    exact absurd hperm.symm.eq_nil hne
  | cons h t =>
    rw [hs] at hperm
    exact hperm.mem_iff.1 (List.mem_cons_self _ _)

/-! ## Claim theorems -/

/-- Claim C1 (code bug): the no-double-booking invariant fails.  On
`cfgDouble` — two Bereiche demanding Monday morning and a single Helferin
with two remaining hours — the fill pass commits Karla to both Bereiche of
the same slot, because the commit loop (app.py lines 368-384) does not
re-check `used_helpers` against the candidate lists computed before the
loop (lines 336-362). -/
theorem double_booking_violated :
    (generate cfgDouble).plan =
      [⟨"Montag Vormittag", "Ambulanz", "Karla"⟩, ⟨"Montag Vormittag", "Labor", "Karla"⟩] ∧
    ¬ NoDoubleBooking (generate cfgDouble).plan := by
  refine ⟨rfl, ?_⟩
  unfold NoDoubleBooking
  decide

/-- Claim C2 (code bug): hour-budget conservation fails.  On `cfgOver` —
the same shape with a budget of one hour — Marta receives two assignments
and her `max_hours` counter ends at `-1`, because the commit loop
decrements without re-checking the `max_hours <= 0` guard that only the
candidate computation (app.py lines 342-352) applies. -/
theorem hour_budget_violated :
    hoursOf cfgOver.helpers_cfg "Marta" = 1 ∧
    assignedCount (generate cfgOver).plan "Marta" = 2 ∧
    hoursOf (generate cfgOver).helpers "Marta" = -1 :=
  ⟨rfl, rfl, rfl⟩

/-- Claim C3 (counterexample): on `cfgRez2` the only other open Bereich
`Labor` has an empty candidate list, yet `Rezeption 2` is still deferred
(its candidate list is forced empty and the slot stays entirely open), so
deferral does not happen exactly while some other open Bereich has a
non-empty candidate set — it happens while some other open non-Rezeption
Bereich merely exists. -/
theorem rez2_deferral_counterexample :
    missingBereiche cfgRez2 "Montag" "Vormittag" (initRun cfgRez2) = ["Rezeption 2", "Labor"] ∧
    rawCandidates cfgRez2 (initRun cfgRez2) "Montag" "Vormittag" "Rezeption 2" = ["Heidi"] ∧
    (generate cfgRez2).plan = [] ∧
    ¬ ((applyRez2Rule cfgRez2 ["Rezeption 2", "Labor"] "Rezeption 2" ["Heidi"] = []) ↔
        ∃ b ∈ ["Labor"], rawCandidates cfgRez2 (initRun cfgRez2) "Montag" "Vormittag" b ≠ []) := by
  refine ⟨rfl, rfl, rfl, ?_⟩
  decide

/-- Claim C7 (counterexample): the standard pass commits in the order of
the `standard_plan_map` entries, not in canonical weekly slot order.  On
`cfgTableOrder` the table lists Monday afternoon before Monday morning
and the commit sequence follows the table. -/
theorem std_pass_slot_order_counterexample :
    (stdPass cfgTableOrder (initRun cfgTableOrder)).plan =
      [⟨"Montag Nachmittag", "Ambulanz", "Helga"⟩, ⟨"Montag Vormittag", "Ambulanz", "Helga"⟩] ∧
    ¬ SlotOrdered (stdPass cfgTableOrder (initRun cfgTableOrder)).plan := by
  refine ⟨rfl, ?_⟩
  unfold SlotOrdered
  decide

/-- Claim C8 (counterexample): `validate_config` accepts `cfgBadRef`
although its standard-plan table references the unknown Helferin `Zaza`;
the run proceeds and the standard pass silently skips the entry instead of
reporting a structural error. -/
theorem validation_silent_skip_counterexample :
    validate_config cfgBadRef = [] ∧
    (stdPass (stateFromConfig cfgBadRef) (initRun (stateFromConfig cfgBadRef))).plan = [] :=
  ⟨rfl, rfl⟩

/-- Claim C9 (counterexample): two generate clicks with identical widget
state and selections can produce different plans.  In `sessStale` the
deselected Berta survives in the session dict; the first run consumes her
last hour, the rebuild (app.py lines 209-238) only resets selected
helpers, and the second run therefore differs. -/
theorem rerun_stale_budget_counterexample :
    (scriptRun uiStale wStale sessStale).1 =
      [⟨"Montag Vormittag", "Labor", "Berta"⟩, ⟨"Montag Nachmittag", "Labor", "Anna"⟩] ∧
    (scriptRun uiStale wStale (scriptRun uiStale wStale sessStale).2).1 =
      [⟨"Montag Vormittag", "Labor", "Anna"⟩, ⟨"Montag Nachmittag", "Labor", "Anna"⟩] ∧
    (scriptRun uiStale wStale sessStale).1 ≠
      (scriptRun uiStale wStale (scriptRun uiStale wStale sessStale).2).1 := by
  refine ⟨rfl, rfl, ?_⟩
  decide

/-- Claim C5 (confirmed): the fill-pass selection rule.  The committed
helper of a non-empty candidate list is `chooseCandidate` (first
conjunct); the chosen candidate is the configured priority helper whenever
the Bereich starts with `Rezeption` and the priority helper is a candidate
(second conjunct); otherwise the choice is a candidate of minimal current
remaining hours (third conjunct); on the spec scenario `cfgRezPrio` the
run assigns B (fourth conjunct). -/
theorem fill_selection_rule :
    (∀ (st : PlanState) (d s : String) (acc : RunState) (b : String) (cands : List String),
        cands ≠ [] →
        (fillCommit st d s acc [(b, cands)]).plan =
          acc.plan ++
            [⟨d ++ " " ++ s, b, chooseCandidate (hoursOf acc.helpers) b
                st.rezeption_prioritaet cands⟩]) ∧
    (∀ (hours : String → Int) (bereich p : String) (cands : List String),
        strStartsWith bereich "Rezeption" = true → p ∈ cands →
        chooseCandidate hours bereich (some p) cands = p) ∧
    (∀ (hours : String → Int) (bereich : String) (prio : Option String)
        (cands : List String),
        cands ≠ [] →
        (∀ q, prio = some q → strStartsWith bereich "Rezeption" = true → q ∉ cands) →
        chooseCandidate hours bereich prio cands ∈ cands ∧
          ∀ c ∈ cands, hours (chooseCandidate hours bereich prio cands) ≤ hours c) ∧
    (generate cfgRezPrio).plan = [⟨"Montag Vormittag", "Rezeption 1", "B"⟩] := by
  refine ⟨?_, ?_, ?_, rfl⟩
  · intro st d s acc b cands hne
    simp only [fillCommit, List.foldl_cons, List.foldl_nil, if_neg hne]
  · intro hours bereich p cands hstart hp
    show (if strStartsWith bereich "Rezeption" = true ∧ p ∈ insSortBy hours cands then p
          else (insSortBy hours cands).headD "") = p
    rw [if_pos ⟨hstart, (mem_insSortBy hours p cands).2 hp⟩]
  · intro hours bereich prio cands hne hq
    have hhead : (insSortBy hours cands).headD "" ∈ cands :=
      insSortBy_headD_mem hours cands hne ""
    have hmin : ∀ c ∈ cands, hours ((insSortBy hours cands).headD "") ≤ hours c :=
      fun c hc => insSortBy_head_min hours cands c hc ""
    cases prio with
    | none => exact ⟨hhead, hmin⟩
    | some p =>
      have hred : chooseCandidate hours bereich (some p) cands =
          (if strStartsWith bereich "Rezeption" = true ∧ p ∈ insSortBy hours cands then p
           else (insSortBy hours cands).headD "") := rfl
      rw [hred, if_neg]
      · exact ⟨hhead, hmin⟩
      · rintro ⟨hstart, hmem⟩
        exact hq p rfl hstart ((mem_insSortBy hours p cands).1 hmem)

/-- Claim C6 (confirmed): per slot, the fill pass processes exactly the
sorted `bereich_kandidaten` list (first conjunct); the sort orders the
open Bereiche by ascending candidate-list length (second conjunct) and is
stable — Bereiche of equal candidate-list length keep their original
traversal order, stated through filters (third conjunct).  Everything is a
pure function of the configuration. -/
theorem fill_scarcity_order :
    (∀ (st : PlanState) (d s : String) (acc : RunState),
        fillSlot st d s acc =
          fillCommit st d s acc (sortKandidaten (bereichKandidaten st d s acc))) ∧
    (∀ l : List (String × List String),
        (sortKandidaten l).Pairwise fun a b => a.2.length ≤ b.2.length) ∧
    (∀ (l : List (String × List String)) (n : Nat),
        (sortKandidaten l).filter (fun bc => decide (bc.2.length = n)) =
          l.filter fun bc => decide (bc.2.length = n)) := by
  refine ⟨fun _ _ _ _ => rfl, ?_, ?_⟩
  · intro l
    exact insSortBy_sorted (fun bc => bc.2.length) l
  · intro l n
    exact insSortBy_filter (fun bc => bc.2.length) n l

/-- Witness for the C5 theorem: the priority override evaluated on the
spec scenario's candidate list. -/
theorem fill_selection_rule_witness :
    (strStartsWith "Rezeption 1" "Rezeption" = true ∧ ("B" : String) ∈ ["A", "B"]) ∧
    chooseCandidate (fun h => if h = "A" then 5 else 1) "Rezeption 1" (some "B")
      ["A", "B"] = "B" :=
  ⟨⟨by decide, by decide⟩,
   fill_selection_rule.2.1 (fun h => if h = "A" then 5 else 1) "Rezeption 1" "B" ["A", "B"]
     (by decide) (by decide)⟩

/-- Claim C3 (amended, proved): with the deferral flag set, a `Rezeption 2`
Bereich is given an empty candidate list exactly while some other open
Bereich whose name does not start with `Rezeption` exists in the slot —
regardless of that Bereich's own candidate list; when no such Bereich
exists, the candidate list is passed through unchanged. -/
theorem rez2_deferral_rule (st : PlanState) (missing : List String) (bereich : String)
    (cands : List String)
    (hb : strStartsWith bereich "Rezeption 2" = true)
    (hf : st.rezeption2_bedarf_vorher = true) :
    ((∃ b ∈ missing, strStartsWith b "Rezeption" = false ∧ b ≠ "Rezeption 2") →
      applyRez2Rule st missing bereich cands = []) ∧
    ((¬ ∃ b ∈ missing, strStartsWith b "Rezeption" = false ∧ b ≠ "Rezeption 2") →
      applyRez2Rule st missing bereich cands = cands) := by
  unfold applyRez2Rule
  rw [if_pos ⟨hb, hf⟩]
  constructor
  · rintro ⟨b, hbm, hns, hne⟩
    rw [if_pos]
    refine List.ne_nil_of_mem (a := b) (List.mem_filter.2 ⟨hbm, ?_⟩)
    simp [hns, hne]
  · intro hno
    rw [if_neg]
    intro hfil
    apply hno
    rcases List.exists_mem_of_ne_nil _ hfil with ⟨b, hb2⟩
    rcases List.mem_filter.1 hb2 with ⟨hbm, hpred⟩
    refine ⟨b, hbm, ?_⟩
    simpa using hpred

/-- Witness for the C3 amended theorem: the rule applied on the concrete
`cfgRez2` slot data. -/
theorem rez2_deferral_rule_witness :
    (strStartsWith "Rezeption 2" "Rezeption 2" = true ∧
      cfgRez2.rezeption2_bedarf_vorher = true ∧
      ∃ b ∈ ["Rezeption 2", "Labor"], strStartsWith b "Rezeption" = false ∧
        b ≠ "Rezeption 2") ∧
    applyRez2Rule cfgRez2 ["Rezeption 2", "Labor"] "Rezeption 2" ["Heidi"] = [] :=
  ⟨⟨by decide, by decide, by decide⟩,
   (rez2_deferral_rule cfgRez2 ["Rezeption 2", "Labor"] "Rezeption 2" ["Heidi"]
      (by decide) (by decide)).1 (by decide)⟩

/-- Claim C8 (amended, proved): `validate_config` never inspects the
standard-plan table (first conjunct), and entries of the table that name
an unknown Helferin, an unselected/unknown Bereich or a slot label outside
the canonical list are silently skipped by the standard pass at assignment
time (remaining conjuncts). -/
theorem validation_table_blind :
    (∀ (c : RawConfig) (t : List (String × List (String × String))),
        validate_config { c with standard_dienstplan := t } = validate_config c) ∧
    (∀ (st : PlanState) (slot bereich helferin : String) (acc : RunState),
        alookup helferin acc.helpers = none →
        stdTry st slot bereich helferin acc = acc) ∧
    (∀ (st : PlanState) (slot bereich helferin : String) (acc : RunState),
        bereich ∉ st.selected_bereiche →
        stdTry st slot bereich helferin acc = acc) ∧
    (∀ (st : PlanState) (acc : RunState) (e : String × List (String × String)),
        e.1 ∉ slots_order → stdStep st acc e = acc) := by
  refine ⟨fun c t => rfl, ?_, ?_, ?_⟩
  · intro st slot bereich helferin acc h
    unfold stdTry
    split
    · split
      · rw [h]
      · rfl
    · rfl
  · intro st slot bereich helferin acc h
    unfold stdTry
    rw [if_neg h]
  · intro st acc e h
    unfold stdStep
    rw [if_neg h]

/-- Witness for the C8 amended theorem: the unknown Helferin `Zaza` of
`cfgBadRef` is skipped without any effect on the run state. -/
theorem validation_table_blind_witness :
    alookup "Zaza" (initRun (stateFromConfig cfgBadRef)).helpers = none ∧
    stdTry (stateFromConfig cfgBadRef) "Montag Vormittag" "Labor" "Zaza"
      (initRun (stateFromConfig cfgBadRef)) = initRun (stateFromConfig cfgBadRef) :=
  ⟨rfl, validation_table_blind.2.1 _ _ _ _ _ rfl⟩

/-! ## Dict-update lemmas for the rerun model -/

theorem alookup_append_some {α : Type} {k : String} {v : α} :
    ∀ {l1 : List (String × α)} (l2 : List (String × α)),
      alookup k l1 = some v → alookup k (l1 ++ l2) = some v := by
  intro l1
  induction l1 with
  | nil => intro l2 h; simp [alookup] at h
  | cons e es ih =>
    intro l2 h
    rw [List.cons_append, alookup]
    rw [alookup] at h
    by_cases he : e.1 = k
    · rw [if_pos he] at h ⊢; exact h
    · rw [if_neg he] at h ⊢; exact ih l2 h

theorem alookup_append_none {α : Type} {k : String} :
    ∀ {l1 : List (String × α)} (l2 : List (String × α)),
      alookup k l1 = none → alookup k (l1 ++ l2) = alookup k l2 := by
  intro l1
  induction l1 with
  | nil => intro l2 _; rfl
  | cons e es ih =>
    intro l2 h
    rw [List.cons_append, alookup]
    rw [alookup] at h
    by_cases he : e.1 = k
    · rw [if_pos he] at h; cases h
    · rw [if_neg he] at h ⊢; exact ih l2 h

theorem alookup_map_replace {k : String} (v : HelperCfg) :
    ∀ {l : List (String × HelperCfg)} {w : HelperCfg}, alookup k l = some w →
      alookup k (l.map fun e => if e.1 = k then (k, v) else e) = some v := by
  intro l
  induction l with
  | nil => intro w h; simp [alookup] at h
  | cons e es ih =>
    intro w h
    rw [alookup] at h
    by_cases he : e.1 = k
    · rw [List.map_cons, if_pos he, alookup, if_pos rfl]
    · rw [List.map_cons, if_neg he, alookup, if_neg he]
      rw [if_neg he] at h
      exact ih h

theorem alookup_dictSet_self (l : List (String × HelperCfg)) (k : String) (v : HelperCfg) :
    alookup k (dictSet l k v) = some v := by
  unfold dictSet
  by_cases hs : (alookup k l).isSome
  · rw [if_pos hs]
    rcases Option.isSome_iff_exists.1 hs with ⟨w, hw⟩
    exact alookup_map_replace v hw
  · rw [if_neg hs]
    have hn : alookup k l = none := Option.not_isSome_iff_eq_none.1 hs
    rw [alookup_append_none _ hn, alookup, if_pos rfl]

theorem alookup_map_replace_other {k k2 : String} (v : HelperCfg) (h : k2 ≠ k) :
    ∀ l : List (String × HelperCfg),
      alookup k2 (l.map fun e => if e.1 = k then (k, v) else e) = alookup k2 l := by
  intro l
  induction l with
  | nil => rfl
  | cons e es ih =>
    rw [List.map_cons]
    by_cases he : e.1 = k
    · rw [if_pos he, alookup, alookup]
      have h1 : ¬ (k, v).1 = k2 := fun hk => h hk.symm
      have h2 : ¬ e.1 = k2 := by rw [he]; exact fun hk => h hk.symm
      rw [if_neg h1, if_neg h2, ih]
    · rw [if_neg he, alookup, alookup]
      by_cases he2 : e.1 = k2
      · rw [if_pos he2, if_pos he2]
      · rw [if_neg he2, if_neg he2, ih]

theorem alookup_dictSet_other (l : List (String × HelperCfg)) (k : String) (v : HelperCfg)
    (k2 : String) (h : k2 ≠ k) : alookup k2 (dictSet l k v) = alookup k2 l := by
  unfold dictSet
  by_cases hs : (alookup k l).isSome
  · rw [if_pos hs]
    exact alookup_map_replace_other v h l
  · rw [if_neg hs]
    cases ho : alookup k2 l with
    | some w => rw [alookup_append_some _ ho]
    | none =>
      rw [alookup_append_none _ ho, alookup]
      rw [if_neg (fun hk : (k, v).1 = k2 => h hk.symm)]
      rfl

theorem rebuild_lookup_of_not_mem (w : WidgetState) :
    ∀ (sel : List String) (old : List (String × HelperCfg)) (h : String), h ∉ sel →
      alookup h (sel.foldl (fun acc x => dictSet acc x (widgetVal w x)) old) =
        alookup h old := by
  intro sel
  induction sel with
  | nil => intro old h _; rfl
  | cons x xs ih =>
    intro old h hnm
    have hne : h ≠ x := fun he => hnm (he ▸ List.mem_cons_self x xs)
    have hnx : h ∉ xs := fun hm => hnm (List.mem_cons_of_mem _ hm)
    rw [List.foldl_cons, ih _ h hnx, alookup_dictSet_other _ _ _ _ hne]

theorem rebuild_lookup_of_mem (w : WidgetState) :
    ∀ (sel : List String) (old : List (String × HelperCfg)) (h : String), h ∈ sel →
      alookup h (sel.foldl (fun acc x => dictSet acc x (widgetVal w x)) old) =
        some (widgetVal w h) := by
  intro sel
  induction sel with
  | nil => intro old h hm; cases hm
  | cons x xs ih =>
    intro old h hm
    by_cases hx : h ∈ xs
    · rw [List.foldl_cons]
      exact ih _ h hx
    · have hhx : h = x := by
        rcases List.mem_cons.1 hm with h1 | h1
        · exact h1
        · exact absurd h1 hx
      subst hhx
      rw [List.foldl_cons, rebuild_lookup_of_not_mem w xs _ h hx, alookup_dictSet_self]

/-- Claim C9 (amended, proved): the produced plan is a deterministic
function of the rebuilt helper dict — two clicks whose rebuilds agree
produce the same plan (first conjunct) — and the rebuild resets the budget
of every currently selected helper to its widget value, regardless of the
decrements of earlier runs (second conjunct).  Per the counterexample,
helpers surviving in the session dict after being deselected are not
reset, which is exactly what breaks full cross-run determinism. -/
theorem generate_budget_reset :
    (∀ (ui : FixedUI) (w : WidgetState) (s1 s2 : List (String × HelperCfg)),
        rebuildHelpers w s1 = rebuildHelpers w s2 →
        (scriptRun ui w s1).1 = (scriptRun ui w s2).1) ∧
    (∀ (w : WidgetState) (old : List (String × HelperCfg)) (h : String),
        h ∈ w.selected_helpers →
        alookup h (rebuildHelpers w old) = some (widgetVal w h)) := by
  constructor
  · intro ui w s1 s2 hre
    unfold scriptRun
    rw [hre]
  · intro w old h hmem
    unfold rebuildHelpers
    exact rebuild_lookup_of_mem w w.selected_helpers old h hmem

/-- Witness for the C9 amended theorem: Anna's budget is freshly reset in
the stale-helper session. -/
theorem generate_budget_reset_witness :
    ("Anna" ∈ wStale.selected_helpers) ∧
    alookup "Anna" (rebuildHelpers wStale sessStale) = some (widgetVal wStale "Anna") :=
  ⟨by decide, generate_budget_reset.2 wStale sessStale "Anna" (by decide)⟩

/-! ## Structure of the standard pass -/

theorem stdTry_plan_cases (st : PlanState) (slot bereich helferin : String) (acc : RunState) :
    (stdTry st slot bereich helferin acc).plan = acc.plan ∨
    (stdTry st slot bereich helferin acc).plan = acc.plan ++ [⟨slot, bereich, helferin⟩] := by
  unfold stdTry
  split
  · split
    · split
      · dsimp only
        split
        · right; rfl
        · left; rfl
      · left; rfl
    · left; rfl
  · left; rfl

theorem stdFold_plan (st : PlanState) (slot : String) :
    ∀ (bel : List (String × String)) (acc : RunState),
      ∃ t, (bel.foldl (fun a p => stdTry st slot p.1 p.2 a) acc).plan = acc.plan ++ t ∧
        List.Sublist (pairsOf t) (bel.map fun q => (slot, q.1)) := by
  intro bel
  induction bel with
  | nil => intro acc; exact ⟨[], by simp, List.nil_sublist _⟩
  | cons p ps ih =>
    intro acc
    rcases ih (stdTry st slot p.1 p.2 acc) with ⟨t, ht, hsub⟩
    rcases stdTry_plan_cases st slot p.1 p.2 acc with h | h
    · refine ⟨t, ?_, ?_⟩
      · rw [List.foldl_cons, ht, h]
      · rw [List.map_cons]
        exact hsub.cons _
    · refine ⟨⟨slot, p.1, p.2⟩ :: t, ?_, ?_⟩
      · rw [List.foldl_cons, ht, h, List.append_assoc]
        rfl
      · rw [List.map_cons]
        exact hsub.cons₂ _

theorem stdStep_plan (st : PlanState) (acc : RunState) (e : String × List (String × String)) :
    ∃ t, (stdStep st acc e).plan = acc.plan ++ t ∧
      List.Sublist (pairsOf t) (e.2.map fun q => (e.1, q.1)) := by
  unfold stdStep
  split
  · exact stdFold_plan st e.1 e.2 acc
  · exact ⟨[], by simp, List.nil_sublist _⟩

theorem stdPassAux_plan (st : PlanState) :
    ∀ (entries : List (String × List (String × String))) (acc : RunState),
      ∃ t, (entries.foldl (stdStep st) acc).plan = acc.plan ++ t ∧
        List.Sublist (pairsOf t) (entries.flatMap fun e => e.2.map fun q => (e.1, q.1)) := by
  intro entries
  induction entries with
  | nil => intro acc; exact ⟨[], by simp, List.nil_sublist _⟩
  | cons e es ih =>
    intro acc
    rcases stdStep_plan st acc e with ⟨t1, ht1, hs1⟩
    rcases ih (stdStep st acc e) with ⟨t2, ht2, hs2⟩
    refine ⟨t1 ++ t2, ?_, ?_⟩
    · rw [List.foldl_cons, ht2, ht1, List.append_assoc]
    · rw [List.flatMap_cons]
      have : pairsOf (t1 ++ t2) = pairsOf t1 ++ pairsOf t2 := List.map_append _ _ _
      rw [this]
      exact List.Sublist.append hs1 hs2

/-- Claim C7 (amended, proved): the standard pass iterates the
`standard_plan_map` table in its own entry order; the committed
`(slot, Bereich)` sequence is a subsequence of the table's flattened entry
sequence, i.e. the commit order is the table order, not the canonical
weekly slot order (which the counterexample shows it to violate). -/
theorem std_pass_follows_table_order (st : PlanState) :
    List.Sublist (pairsOf (stdPass st (initRun st)).plan) (tableKeys st) := by
  rcases stdPassAux_plan st st.standard_plan_map (initRun st) with ⟨t, ht, hsub⟩
  unfold stdPass
  rw [ht]
  simpa [tableKeys] using hsub

/-! ## Slot decomposition -/

theorem splitSpace_slot : ∀ d ∈ days, ∀ s ∈ schifts, splitSpace (d ++ " " ++ s) = [d, s] := by
  decide

theorem slots_order_decomp {slot : String} (h : slot ∈ slots_order) :
    ∃ d s, d ∈ days ∧ s ∈ schifts ∧ slot = d ++ " " ++ s := by
  rcases List.mem_flatMap.1 h with ⟨d, hd, hmem⟩
  rcases List.mem_map.1 hmem with ⟨s, hs, heq⟩
  exact ⟨d, s, hd, hs, heq.symm⟩

/-! ## Shape preservation of the helper dict -/

theorem sameShape_refl (l : List (String × HelperCfg)) : SameShape l l := by
  induction l with
  | nil => exact List.Forall₂.nil
  | cons e es ih => exact List.Forall₂.cons ⟨rfl, rfl, rfl⟩ ih

theorem sameShape_decHours {init cur : List (String × HelperCfg)} (h : SameShape init cur)
    (hh : String) : SameShape init (decHours cur hh) := by
  induction h with
  | nil => exact List.Forall₂.nil
  | @cons a b l1 l2 hr ht ih =>
    refine List.Forall₂.cons ?_ ih
    by_cases hb : b.1 = hh
    · simp only [decHours, List.map_cons]  -- reduce the mapped head
      rw [if_pos hb]
      exact ⟨hr.1.trans hb ▸ hr.1, hr.2.1, hr.2.2⟩
    · simp only [decHours, List.map_cons]
      rw [if_neg hb]
      exact hr

theorem sameShape_mem_right {init cur : List (String × HelperCfg)} (h : SameShape init cur)
    {k : String} {c : HelperCfg} (hm : (k, c) ∈ cur) :
    ∃ c0, (k, c0) ∈ init ∧ c0.times = c.times ∧ c0.areas = c.areas := by
  induction h with
  | nil => cases hm
  | @cons a b l1 l2 hr ht ih =>
    rcases List.mem_cons.1 hm with rfl | hm
    · refine ⟨a.2, ?_, hr.2.1, hr.2.2⟩
      have : a = (k, a.2) := by
        have h1 : a.1 = k := hr.1
        calc a = (a.1, a.2) := rfl
          _ = (k, a.2) := by rw [h1]
      rw [← this]
      exact List.mem_cons_self _ _
    · rcases ih hm with ⟨c0, hc0, ht, ha⟩
      exact ⟨c0, List.mem_cons_of_mem _ hc0, ht, ha⟩

/-! ## Full case analysis of a standard-pass entry -/

theorem stdTry_total_cases (st : PlanState) (slot bereich helferin : String) (acc : RunState) :
    stdTry st slot bereich helferin acc = acc ∨
    ∃ d s hcfg cb,
      splitSpace slot = [d, s] ∧
      alookup helferin acc.helpers = some hcfg ∧
      alookup bereich st.bereiche_cfg = some cb ∧
      s ∈ getDay cb.shifts d ∧ 0 < hcfg.max_hours ∧ s ∈ getDay hcfg.times d ∧
      bereich ∈ hcfg.areas ∧ helferin ∈ cb.helpers ∧ (d, s, helferin) ∉ acc.used ∧
      stdTry st slot bereich helferin acc =
        { plan := acc.plan ++ [⟨slot, bereich, helferin⟩],
          helpers := decHours acc.helpers helferin,
          used := (d, s, helferin) :: acc.used } := by
  unfold stdTry
  split
  · split
    · rename_i d s hsp
      dsimp only
      split
      · rename_i hcfg hal
        split
        · rename_i hcond
          right
          cases halo : alookup bereich st.bereiche_cfg with
          | none =>
            rw [halo] at hcond
            exact absurd hcond.2.2.2.2.1 (List.not_mem_nil helferin)
          | some cb =>
            rw [halo] at hcond
            exact ⟨d, s, hcfg, cb, hsp, hal, rfl, hcond.1, hcond.2.1, hcond.2.2.1,
              hcond.2.2.2.1, hcond.2.2.2.2.1, hcond.2.2.2.2.2, rfl⟩
        · left; rfl
      · left; rfl
    · left; rfl
  · left; rfl

/-- The chosen candidate is always one of the candidates. -/
theorem chooseCandidate_mem (hours : String → Int) (bereich : String) (prio : Option String)
    (cands : List String) (hne : cands ≠ []) :
    chooseCandidate hours bereich prio cands ∈ cands := by
  unfold chooseCandidate
  cases prio with
  | none => exact insSortBy_headD_mem hours cands hne ""
  | some p =>
    dsimp only
    split
    · rename_i h
      exact (mem_insSortBy hours p cands).1 h.2
    · exact insSortBy_headD_mem hours cands hne ""

/-! ## Eligibility through the standard pass -/

theorem stdTry_elig (st : PlanState) (slot bereich helferin : String) (acc : RunState)
    (hslot : slot ∈ slots_order) (hinv : EligInv st acc) :
    EligInv st (stdTry st slot bereich helferin acc) := by
  rcases stdTry_total_cases st slot bereich helferin acc with h |
    ⟨d, s, hcfg, cb, hsp, hal, halo, hc1, hc2, hc3, hc4, hc5, hc6, heq⟩
  · rw [h]; exact hinv
  · rw [heq]
    refine ⟨sameShape_decHours hinv.1 helferin, ?_⟩
    intro p hp
    rcases List.mem_append.1 hp with hp | hp
    · exact hinv.2 p hp
    · rcases List.mem_singleton.1 hp with rfl
      rcases slots_order_decomp hslot with ⟨d0, s0, hd0, hs0, hse⟩
      have hsp0 : splitSpace slot = [d0, s0] := by
        rw [hse]; exact splitSpace_slot d0 hd0 s0 hs0
      rw [hsp] at hsp0
      obtain ⟨hdd, hss⟩ : d = d0 ∧ s = s0 := by
        injection hsp0 with h1 h2
        injection h2 with h3 _
        exact ⟨h1, h3⟩
      subst hdd
      subst hss
      refine ⟨d, s, hd0, hs0, hse, ⟨cb, halo, hc5⟩,
        ⟨(bereich, cb), alookup_mem halo, rfl, hc1⟩, ?_⟩
      have hmem : (helferin, hcfg) ∈ acc.helpers := alookup_mem hal
      rcases sameShape_mem_right hinv.1 hmem with ⟨c0, hc0m, htimes, hareas⟩
      refine ⟨(helferin, c0), hc0m, rfl, ?_, ?_⟩
      · show s ∈ getDay c0.times d
        rw [htimes]; exact hc3
      · show bereich ∈ c0.areas
        rw [hareas]; exact hc4

theorem stdStep_elig (st : PlanState) (acc : RunState)
    (e : String × List (String × String)) (hinv : EligInv st acc) :
    EligInv st (stdStep st acc e) := by
  unfold stdStep
  split
  · rename_i hslot
    exact foldl_inv e.2 acc (fun a p _ ha => stdTry_elig st e.1 p.1 p.2 a hslot ha) hinv
  · exact hinv

theorem stdPass_elig (st : PlanState) (acc : RunState) (hinv : EligInv st acc) :
    EligInv st (stdPass st acc) :=
  foldl_inv st.standard_plan_map acc (fun a e _ ha => stdStep_elig st a e ha) hinv

/-! ## Eligibility through the fill pass -/

theorem applyRez2Rule_subset {st : PlanState} {missing : List String}
    {bereich : String} {cands : List String} {x : String}
    (hx : x ∈ applyRez2Rule st missing bereich cands) : x ∈ cands := by
  unfold applyRez2Rule at hx
  split at hx
  · split at hx
    · cases hx
    · exact hx
  · exact hx

theorem mem_missingBereiche {st : PlanState} {d s : String} {acc : RunState} {b : String}
    (hb : b ∈ missingBereiche st d s acc) :
    ∃ e ∈ st.bereiche_cfg, e.1 = b ∧ b ∈ st.selected_bereiche ∧ s ∈ getDay e.2.shifts d ∧
      ¬ ∃ p ∈ acc.plan, p.slot = d ++ " " ++ s ∧ p.bereich = b := by
  rcases List.mem_filterMap.1 hb with ⟨e, he, hfe⟩
  by_cases hc : e.1 ∈ st.selected_bereiche ∧ s ∈ getDay e.2.shifts d ∧
      ¬ ∃ p ∈ acc.plan, p.slot = d ++ " " ++ s ∧ p.bereich = e.1
  · rw [if_pos hc] at hfe
    cases hfe
    exact ⟨e, he, rfl, hc.1, hc.2.1, hc.2.2⟩
  · rw [if_neg hc] at hfe
    cases hfe

theorem mem_rawCandidates {st : PlanState} {acc : RunState} {d s bereich : String}
    {c : String} (hc : c ∈ rawCandidates st acc d s bereich) :
    ∃ e ∈ acc.helpers, e.1 = c ∧ 0 < e.2.max_hours ∧ s ∈ getDay e.2.times d ∧
      bereich ∈ e.2.areas ∧
      (∃ cb, alookup bereich st.bereiche_cfg = some cb ∧ c ∈ cb.helpers) ∧
      (d, s, c) ∉ acc.used := by
  unfold rawCandidates at hc
  rcases List.mem_filterMap.1 hc with ⟨e, he, hfe⟩
  by_cases hcond : 0 < e.2.max_hours ∧ s ∈ getDay e.2.times d ∧ bereich ∈ e.2.areas ∧
      e.1 ∈ ((alookup bereich st.bereiche_cfg).getD ⟨[], []⟩).helpers ∧ (d, s, e.1) ∉ acc.used
  · rw [if_pos hcond] at hfe
    cases hfe
    refine ⟨e, he, rfl, hcond.1, hcond.2.1, hcond.2.2.1, ?_, hcond.2.2.2.2⟩
    cases halo : alookup bereich st.bereiche_cfg with
    | none =>
      rw [halo] at hcond
      exact absurd hcond.2.2.2.1 (List.not_mem_nil _)
    | some cb =>
      rw [halo] at hcond
      exact ⟨cb, rfl, hcond.2.2.2.1⟩
  · rw [if_neg hcond] at hfe
    cases hfe

theorem mem_bereichKandidaten {st : PlanState} {d s : String} {acc : RunState}
    {bc : String × List String} (hbc : bc ∈ bereichKandidaten st d s acc) :
    bc.1 ∈ missingBereiche st d s acc ∧
      bc.2 = applyRez2Rule st (missingBereiche st d s acc) bc.1
        (rawCandidates st acc d s bc.1) := by
  unfold bereichKandidaten at hbc
  rcases List.mem_map.1 hbc with ⟨b, hb, heq⟩
  cases heq
  exact ⟨hb, rfl⟩

theorem bereichKandidaten_elig (st : PlanState) (d s : String) (acc : RunState)
    (hshape : SameShape st.helpers_cfg acc.helpers) :
    SlotElig st d s (bereichKandidaten st d s acc) := by
  intro bc hbc c hc
  rcases mem_bereichKandidaten hbc with ⟨hb, hck⟩
  rw [hck] at hc
  have hcraw : c ∈ rawCandidates st acc d s bc.1 := applyRez2Rule_subset hc
  rcases mem_rawCandidates hcraw with ⟨e, he, hek, hh, ht, ha, hcb, hu⟩
  rcases mem_missingBereiche hb with ⟨eb, heb, hebk, hsel, hdem, hnp⟩
  refine ⟨hcb, ⟨eb, heb, hebk, hdem⟩, ?_⟩
  have hmem : (c, e.2) ∈ acc.helpers := by
    have hee : e = (c, e.2) := by
      calc e = (e.1, e.2) := rfl
        _ = (c, e.2) := by rw [hek]
    rw [← hee]
    exact he
  rcases sameShape_mem_right hshape hmem with ⟨c0, hc0, htimes, hareas⟩
  refine ⟨(c, c0), hc0, rfl, ?_, ?_⟩
  · show s ∈ getDay c0.times d
    rw [htimes]; exact ht
  · show bc.1 ∈ c0.areas
    rw [hareas]; exact ha

theorem slotElig_sort {st : PlanState} {d s : String} {l : List (String × List String)}
    (h : SlotElig st d s l) : SlotElig st d s (sortKandidaten l) := by
  intro bc hbc c hc
  exact h bc ((mem_insSortBy _ bc l).1 hbc) c hc

theorem fillCommit_elig (st : PlanState) (d s : String) (hd : d ∈ days) (hs : s ∈ schifts) :
    ∀ (bk : List (String × List String)) (acc : RunState),
      SlotElig st d s bk → EligInv st acc → EligInv st (fillCommit st d s acc bk) := by
  intro bk
  induction bk with
  | nil => intro acc _ hinv; exact hinv
  | cons bc rest ih =>
    intro acc hse hinv
    have hrest : SlotElig st d s rest :=
      fun bc2 hbc2 => hse bc2 (List.mem_cons_of_mem _ hbc2)
    unfold fillCommit
    rw [List.foldl_cons]
    dsimp only
    by_cases hemp : bc.2 = []
    · rw [if_pos hemp]
      exact ih acc hrest hinv
    · rw [if_neg hemp]
      refine ih _ hrest ⟨sameShape_decHours hinv.1 _, ?_⟩
      intro p hp
      rcases List.mem_append.1 hp with hp | hp
      · exact hinv.2 p hp
      · rcases List.mem_singleton.1 hp with rfl
        have hcmem : chooseCandidate (hoursOf acc.helpers) bc.1 st.rezeption_prioritaet bc.2
            ∈ bc.2 := chooseCandidate_mem _ _ _ _ hemp
        rcases hse bc (List.mem_cons_self _ _) _ hcmem with ⟨hcb, hdem, hhelp⟩
        exact ⟨d, s, hd, hs, rfl, hcb, hdem, hhelp⟩

theorem fillSlot_elig (st : PlanState) (d s : String) (hd : d ∈ days) (hs : s ∈ schifts)
    (acc : RunState) (hinv : EligInv st acc) : EligInv st (fillSlot st d s acc) := by
  unfold fillSlot
  exact fillCommit_elig st d s hd hs _ acc
    (slotElig_sort (bereichKandidaten_elig st d s acc hinv.1)) hinv

theorem fillPass_elig (st : PlanState) (acc : RunState) (hinv : EligInv st acc) :
    EligInv st (fillPass st acc) := by
  unfold fillPass
  refine foldl_inv days acc (fun a1 d hdm ha1 => ?_) hinv
  exact foldl_inv schifts a1 (fun a2 s hsm ha2 => fillSlot_elig st d s hdm hsm a2 ha2) ha1

/-- Claim C4 (confirmed): eligibility soundness.  Every assignment the
generate run commits — in either pass — names a slot of the canonical
week, a Bereich that lists the Helferin as eligible and demands that
day/shift, and a Helferin whose configuration covers that day/shift and
that Bereich. -/
theorem generate_eligibility_sound (st : PlanState) :
    ∀ p ∈ (generate st).plan, Eligible st p := by
  have hinit : EligInv st (initRun st) :=
    ⟨sameShape_refl st.helpers_cfg, fun p hp => absurd hp (List.not_mem_nil p)⟩
  exact (fillPass_elig st _ (stdPass_elig st (initRun st) hinit)).2

/-- Witness for the C4 theorem: the first assignment of the `cfgDouble`
run is eligible. -/
theorem generate_eligibility_sound_witness :
    (⟨"Montag Vormittag", "Ambulanz", "Karla"⟩ : Assignment) ∈ (generate cfgDouble).plan ∧
    Eligible cfgDouble ⟨"Montag Vormittag", "Ambulanz", "Karla"⟩ :=
  ⟨by decide, generate_eligibility_sound cfgDouble _ (by decide)⟩

/-! ## Uniqueness of the (slot, Bereich) cells -/

theorem pairsOf_append (l1 l2 : List Assignment) :
    pairsOf (l1 ++ l2) = pairsOf l1 ++ pairsOf l2 :=
  List.map_append _ _ _

theorem mem_pairsOf {l : List Assignment} {slot b : String} :
    (slot, b) ∈ pairsOf l ↔ ∃ p ∈ l, p.slot = slot ∧ p.bereich = b := by
  unfold pairsOf
  rw [List.mem_map]
  constructor
  · rintro ⟨p, hp, heq⟩
    exact ⟨p, hp, congrArg Prod.fst heq, congrArg Prod.snd heq⟩
  · rintro ⟨p, hp, h1, h2⟩
    exact ⟨p, hp, by rw [h1, h2]⟩

theorem flat_pairs_nodup :
    ∀ l : List (String × List (String × String)),
      (l.map Prod.fst).Nodup → (∀ e ∈ l, (e.2.map Prod.fst).Nodup) →
      (l.flatMap fun e => e.2.map fun q => (e.1, q.1)).Nodup := by
  intro l
  induction l with
  | nil => intro _ _; exact List.nodup_nil
  | cons e es ih =>
    intro h1 h2
    rw [List.flatMap_cons]
    rw [List.map_cons] at h1
    have h1h := (List.nodup_cons.1 h1).1
    have h1t := (List.nodup_cons.1 h1).2
    refine List.Nodup.append ?_
      (ih h1t fun e2 he2 => h2 e2 (List.mem_cons_of_mem _ he2)) ?_
    · have hrw : (e.2.map fun q => (e.1, q.1)) =
          (e.2.map Prod.fst).map fun b => (e.1, b) := by
        rw [List.map_map]
        rfl
      rw [hrw]
      exact List.Nodup.map (fun b1 b2 hb => congrArg Prod.snd hb)
        (h2 e (List.mem_cons_self _ _))
    · intro x hx1 hx2
      rcases List.mem_map.1 hx1 with ⟨q, hq, hxe⟩
      rcases List.mem_flatMap.1 hx2 with ⟨e2, he2, hxe2⟩
      rcases List.mem_map.1 hxe2 with ⟨q2, hq2, hxe3⟩
      apply h1h
      have hx1f : e.1 = x.1 := congrArg Prod.fst hxe
      have hx2f : e2.1 = x.1 := congrArg Prod.fst hxe3
      rw [hx1f, ← hx2f]
      exact List.mem_map.2 ⟨e2, he2, rfl⟩

theorem missingBereiche_sublist (st : PlanState) (d s : String) (acc : RunState) :
    List.Sublist (missingBereiche st d s acc) (st.bereiche_cfg.map Prod.fst) := by
  unfold missingBereiche
  generalize st.bereiche_cfg = l
  induction l with
  | nil => exact List.Sublist.refl _
  | cons e es ih =>
    rw [List.map_cons]
    by_cases hp : e.1 ∈ st.selected_bereiche ∧ s ∈ getDay e.2.shifts d ∧
        ¬ ∃ p ∈ acc.plan, p.slot = d ++ " " ++ s ∧ p.bereich = e.1
    · simp only [List.filterMap_cons, if_pos hp]
      exact ih.cons₂ _
    · simp only [List.filterMap_cons, if_neg hp]
      exact ih.cons _

theorem bereichKandidaten_keys (st : PlanState) (d s : String) (acc : RunState) :
    (bereichKandidaten st d s acc).map Prod.fst = missingBereiche st d s acc := by
  unfold bereichKandidaten
  rw [List.map_map]
  exact List.map_id _

theorem fillCommit_nodup (st : PlanState) (d s : String) :
    ∀ (bk : List (String × List String)) (acc : RunState),
      (pairsOf acc.plan).Nodup →
      (∀ bc ∈ bk, (d ++ " " ++ s, bc.1) ∉ pairsOf acc.plan) →
      (bk.map Prod.fst).Nodup →
      (pairsOf (fillCommit st d s acc bk).plan).Nodup := by
  intro bk
  induction bk with
  | nil => intro acc h _ _; exact h
  | cons bc rest ih =>
    intro acc hnd hnp hkeys
    unfold fillCommit
    rw [List.foldl_cons]
    dsimp only
    rw [List.map_cons] at hkeys
    have hkh := (List.nodup_cons.1 hkeys).1
    have hkt := (List.nodup_cons.1 hkeys).2
    by_cases hemp : bc.2 = []
    · rw [if_pos hemp]
      exact ih acc hnd (fun bc2 hbc2 => hnp bc2 (List.mem_cons_of_mem _ hbc2)) hkt
    · rw [if_neg hemp]
      refine ih _ ?_ ?_ hkt
      · rw [pairsOf_append]
        refine List.Nodup.append hnd (List.nodup_singleton _) ?_
        intro x hx1 hx2
        rcases List.mem_singleton.1 hx2 with rfl
        exact hnp bc (List.mem_cons_self _ _) hx1
      · intro bc2 hbc2
        rw [pairsOf_append]
        intro hmem
        rcases List.mem_append.1 hmem with hmem | hmem
        · exact hnp bc2 (List.mem_cons_of_mem _ hbc2) hmem
        · rcases List.mem_singleton.1 hmem with heq
          have : bc2.1 = bc.1 := congrArg Prod.snd heq
          apply hkh
          rw [← this]
          exact List.mem_map.2 ⟨bc2, hbc2, rfl⟩

theorem fillSlot_nodup (st : PlanState) (hb : (st.bereiche_cfg.map Prod.fst).Nodup)
    (d s : String) (acc : RunState) (hnd : (pairsOf acc.plan).Nodup) :
    (pairsOf (fillSlot st d s acc).plan).Nodup := by
  unfold fillSlot
  apply fillCommit_nodup
  · exact hnd
  · intro bc hbc
    have hbk : bc ∈ bereichKandidaten st d s acc :=
      (mem_insSortBy _ bc _).1 hbc
    rcases mem_bereichKandidaten hbk with ⟨hm, _⟩
    rcases mem_missingBereiche hm with ⟨e, he, hek, hsel, hdem, hnp⟩
    intro hpair
    rcases mem_pairsOf.1 hpair with ⟨p, hp, hp1, hp2⟩
    exact hnp ⟨p, hp, hp1, hp2⟩
  · have hperm : List.Perm
        ((sortKandidaten (bereichKandidaten st d s acc)).map Prod.fst)
        ((bereichKandidaten st d s acc).map Prod.fst) :=
      (insSortBy_perm _ _).map _
    rw [hperm.nodup_iff, bereichKandidaten_keys]
    exact List.Nodup.sublist (missingBereiche_sublist st d s acc) hb

/-- Claim C10 (confirmed): the committed plan is a partial function on
`(slot, Bereich)` cells.  Under the dict-uniqueness facts a JSON/Python
dict guarantees — unique slot keys in the table, unique Bereich keys in
each table entry, unique Bereich keys in `bereiche_cfg` — no two
assignments of a run share a cell, which is what makes the subsequent
pivot well defined. -/
theorem plan_cell_unique (st : PlanState)
    (h1 : (st.standard_plan_map.map Prod.fst).Nodup)
    (h2 : ∀ e ∈ st.standard_plan_map, (e.2.map Prod.fst).Nodup)
    (h3 : (st.bereiche_cfg.map Prod.fst).Nodup) :
    (pairsOf (generate st).plan).Nodup := by
  have hstd : (pairsOf (stdPass st (initRun st)).plan).Nodup := by
    rcases stdPassAux_plan st st.standard_plan_map (initRun st) with ⟨t, ht, hsub⟩
    have hpl : (stdPass st (initRun st)).plan = t := by
      unfold stdPass
      rw [ht]
      exact List.nil_append t
    rw [hpl]
    exact List.Nodup.sublist hsub (flat_pairs_nodup st.standard_plan_map h1 h2)
  exact foldl_inv (P := fun a => (pairsOf a.plan).Nodup) days (stdPass st (initRun st))
    (fun a d _ ha =>
      foldl_inv schifts a (fun a2 s _ ha2 => fillSlot_nodup st h3 d s a2 ha2) ha) hstd

/-- Witness for the C10 theorem: cell uniqueness on the concrete
`cfgTableOrder` run. -/
theorem plan_cell_unique_witness :
    ((cfgTableOrder.standard_plan_map.map Prod.fst).Nodup ∧
      (∀ e ∈ cfgTableOrder.standard_plan_map, (e.2.map Prod.fst).Nodup) ∧
      (cfgTableOrder.bereiche_cfg.map Prod.fst).Nodup) ∧
    (pairsOf (generate cfgTableOrder).plan).Nodup :=
  ⟨⟨by decide, by decide, by decide⟩,
   plan_cell_unique cfgTableOrder (by decide) (by decide) (by decide)⟩

end Dienstplan
